import Mathlib

/-!
Shallow embedding of `src/Web_Crawl.py` (a single-site web crawler that
extracts URLs, image URLs, phone numbers, zip codes and lexical data),
together with proofs settling the specification claims about it.

Modelling conventions:
* Python strings are `String`; character-level work happens on `String.data`.
* Python sets of strings are modelled as insertion-ordered duplicate-free
  lists built with `setAdd` (iteration order of a Python set is not
  observable by any claim proved here).
* The two regular expressions `phonePatt` and `zipPatt` are hand-compiled
  into executable matchers; both patterns are deterministic except for the
  optional `(?:-\d{4})?` group of the zip pattern, whose one backtracking
  point is compiled explicitly.  `re.findall` is the usual leftmost
  non-overlapping scan.
* The external collaborators (HTML parser, tokenizer, POS tagger,
  lemmatizer, NLTK stopword corpus) are out of scope per the spec; parsed
  pages are a `Doc` record, tokenizer/tagger/lemmatizer are function
  parameters, and the stopword corpus is a fixed representative list.
* The `while pages_to_visit:` loop of `scrape_site` is embedded as a
  fuel-indexed small-step loop `crawl_run`; quantifying over the fuel covers
  every state the loop can reach, in particular the final one.
-/

/-- Python `needle.isPrefixOf hay` on character lists: `listStartsWith p l`
is true when `p` is an initial segment of `l` (models `str.startswith`). -/
def listStartsWith : List Char → List Char → Bool
  | [], _ => true
  | _ :: _, [] => false
  | a :: as, b :: bs => a == b && listStartsWith as bs

/-- Occurrence of `needle` as a contiguous segment of `hay`
(models Python `needle in hay` on strings). -/
def listHasSub (needle : List Char) : List Char → Bool
  | [] => listStartsWith needle []
  | c :: cs => listStartsWith needle (c :: cs) || listHasSub needle cs

/-- Python `hay.startswith(p)`. -/
def strStartsWith (s p : String) : Bool := listStartsWith p.data s.data

/-- Python `needle in hay` (substring containment). -/
def strIn (needle hay : String) : Bool := listHasSub needle.data hay.data

/-- Python `w.isnumeric()` restricted to the ASCII fragment used here:
nonempty and all decimal digits. -/
def strIsNumeric (w : String) : Bool := !w.data.isEmpty && w.data.all Char.isDigit

/-- Python `s.lower()` on the ASCII fragment used here: lowercase every
character. -/
def strToLower (s : String) : String := ⟨s.data.map Char.toLower⟩

/-- Python's `string.punctuation` constant (the 32 ASCII punctuation
characters, in their fixed order). -/
def punctuationChars : String := "!\"#$%&\x27()*+,-./:;<=>?@[\\]^_\x60\x7b|\x7d~"

/-- Modelled from the spec: the fixed English stopword set
(`stopwords.words('english')` is external NLTK corpus data, not part of
src/).  A representative fixed list; no claim depends on its exact
contents, only on it being a fixed set of lowercase words. -/
def stopwords_set : List String :=
  ["i", "me", "my", "we", "our", "you", "he", "she", "it", "they", "them",
   "the", "a", "an", "and", "or", "but", "if", "is", "are", "was", "were",
   "be", "been", "being", "to", "of", "in", "on", "at", "for", "with",
   "not", "no", "do", "does", "did", "have", "has", "had", "this", "that",
   "these", "those", "from", "as", "by", "so", "than", "too", "very",
   "can", "will", "just", "s", "t", "don", "now"]

/-- Matcher for the compiled pattern
`dimension_patt = re.compile(r'\d+px|\d+em|\d+pt|\d+rem')` used via
`re.match` (anchored at the start of the word).  Since a digit can never
also start a unit suffix, the greedy `\d+` always takes the maximal digit
run, so `re.match` succeeds exactly when a nonempty leading digit run is
followed by one of the four unit suffixes. -/
def dimensionMatch (w : String) : Bool :=
  let rest := w.data.dropWhile Char.isDigit
  !(w.data.takeWhile Char.isDigit).isEmpty &&
    (listStartsWith "px".data rest || listStartsWith "em".data rest ||
     listStartsWith "pt".data rest || listStartsWith "rem".data rest)

/-- Lowercase-hex predicate for `hash_patt = re.compile(r'[a-f0-9]{32,64}')`. -/
def isLowerHex (c : Char) : Bool := c.isDigit || ('a' ≤ c && c ≤ 'f')

/-- Matcher for `re.match(hash_patt, w)`: truthy exactly when the first 32
characters of `w` exist and are all lowercase hex. -/
def hashMatch (w : String) : Bool :=
  w.data.length ≥ 32 && (w.data.take 32).all isLowerHex

/-- Consume one optional literal character (a greedy `c?` whose follower can
never also be `c` in the patterns compiled here). -/
def optChar (c : Char) (cs : List Char) : List Char :=
  match cs with
  | x :: xs => if x == c then xs else x :: xs
  | [] => []

/-- Consume one mandatory literal character. -/
def litChar (c : Char) : List Char → Option (List Char)
  | x :: xs => if x == c then some xs else none
  | [] => none

/-- Consume exactly `n` decimal digits (`\d{n}`). -/
def exactDigits : Nat → List Char → Option (List Char)
  | 0, cs => some cs
  | n + 1, x :: xs => if x.isDigit then exactDigits n xs else none
  | _ + 1, [] => none

/-- Consume a greedy run of spaces (` *`; its follower is never a space). -/
def spacesRun (cs : List Char) : List Char := cs.dropWhile (· == ' ')

/-- Hand-compiled matcher for
`phonePatt = re.compile(r'\(?\d{3}\)? -?\d{3}-? *-?\d{4}')`, anchored at
the start of `cs`; returns the length of the match.  Note the pattern
contains a mandatory literal space after the optional closing parenthesis.
Every optional element's follower starts with a different character class,
so the greedy left-to-right reading is exactly Python's backtracking
semantics. -/
def phoneMatchLen (cs : List Char) : Option Nat := do
  let r1 := optChar '(' cs
  let r2 ← exactDigits 3 r1
  let r3 := optChar ')' r2
  let r4 ← litChar ' ' r3
  let r5 := optChar '-' r4
  let r6 ← exactDigits 3 r5
  let r7 := optChar '-' r6
  let r8 := spacesRun r7
  let r9 := optChar '-' r8
  let r10 ← exactDigits 4 r9
  pure (cs.length - r10.length)

/-- Hand-compiled matcher for `zipPatt = re.compile(r'\d{5}(?:-\d{4})?')`,
anchored at the start of `cs`; the optional `-\d{4}` group is tried
greedily and dropped if it fails, which is the only backtracking point. -/
def zipMatchLen (cs : List Char) : Option Nat := do
  let r5 ← exactDigits 5 cs
  match litChar '-' r5 >>= exactDigits 4 with
  | some r9 => pure (cs.length - r9.length)
  | none => pure (cs.length - r5.length)

/-- Python `patt.findall(text)`: leftmost non-overlapping scan.  On a match
of positive length `n` the match (the next `n` characters) is emitted and
scanning resumes after it; otherwise scanning advances one character. -/
def refindallAux (matchLen : List Char → Option Nat) :
    Nat → List Char → List String
  | _, [] => []
  | 0, _ :: _ => []
  | bound + 1, c :: cs =>
    match matchLen (c :: cs) with
    | some (n + 1) =>
        ⟨(c :: cs).take (n + 1)⟩ ::
          refindallAux matchLen bound ((c :: cs).drop (n + 1))
    | _ => refindallAux matchLen bound cs

/-- The scan of `refindallAux` started with enough budget: every step
consumes at least one character, so a budget of `l.length` never runs out
and the `0`-budget clause is unreachable. -/
def refindall (matchLen : List Char → Option Nat) (l : List Char) :
    List String :=
  refindallAux matchLen l.length l

/-- Python `s.add(x)` on an insertion-ordered duplicate-free list model of a
set. -/
def setAdd (s : List String) (x : String) : List String :=
  if x ∈ s then s else s ++ [x]

/-- Python `s.update(t)` (set union, left-biased insertion order). -/
def setUnion (s t : List String) : List String := t.foldl setAdd s

/-- Python `set(l)` for a list `l`. -/
def pySet (l : List String) : List String := l.foldl setAdd []

/-- Source line 61: `extract_phone_numbers(text)` returns
`set(phonePatt.findall(text))`. -/
def extract_phone_numbers (text : String) : List String :=
  pySet (refindall phoneMatchLen text.data)

/-- Source line 64: `extract_zip_codes(text)` returns
`set(zipPatt.findall(text))`. -/
def extract_zip_codes (text : String) : List String :=
  pySet (refindall zipMatchLen text.data)

/-- Disjunction of the eight removal conditions of source lines 70–77, in
source order: stopword membership of the lowercased word, `re.match` of the
dimension pattern, `re.match` of the hash pattern, Python
`word in string.punctuation` (substring containment in the punctuation
constant), `word.isnumeric()`, `word.startswith('http')`,
`word.startswith('//')`, `'=' in word`. -/
def isNonContentWord (word : String) : Bool :=
  decide (strToLower word ∈ stopwords_set) ||
  dimensionMatch word ||
  hashMatch word ||
  strIn word punctuationChars ||
  strIsNumeric word ||
  strStartsWith word "http" ||
  strStartsWith word "//" ||
  strIn "=" word

/-- Source lines 67–80: `filter_non_content_words(tokens)` — the
`for`/`continue`/`append` loop building `filtered_tokens`. -/
def filter_non_content_words (tokens : List String) : List String :=
  tokens.foldl
    (fun filtered_tokens word =>
      if isNonContentWord word then filtered_tokens
      else filtered_tokens ++ [word]) []

/-- Source lines 82–85: `extract_vocabulary(text)`; the external
`word_tokenize` is a function parameter. -/
def extract_vocabulary (tokenize : String → List String) (text : String) :
    List String :=
  pySet (filter_non_content_words (tokenize (strToLower text)))

/-- Source lines 92–97: one iteration of the loop over `pos_tags` filling
the `refined_verbs` and `refined_nouns` sets; the external lemmatizer is
the parameter `lem`. -/
def pos_step (lem : String → String) (acc : List String × List String)
    (wt : String × String) : List String × List String :=
  let lemmatized_word := lem (strToLower wt.1)
  if strStartsWith wt.2 "VB" && decide (lemmatized_word ∉ stopwords_set) then
    (setAdd acc.1 lemmatized_word, acc.2)
  else if strStartsWith wt.2 "NN" && decide (lemmatized_word ∉ stopwords_set) then
    (acc.1, setAdd acc.2 lemmatized_word)
  else acc

/-- Folding `pos_step` over the tagged tokens, starting from the two empty
sets, as the source loop does. -/
def pos_candidates (lem : String → String)
    (pos_tags : List (String × String)) : List String × List String :=
  pos_tags.foldl (pos_step lem) ([], [])

/-- Source line 99: `refined_verbs = filter_non_content_words(list(refined_verbs))`. -/
def refined_verbs (tok : String → List String)
    (tag : List String → List (String × String)) (lem : String → String)
    (text : String) : List String :=
  filter_non_content_words (pos_candidates lem (tag (tok text))).1

/-- Source line 100: `refined_nouns = filter_non_content_words(list(refined_nouns))`. -/
def refined_nouns (tok : String → List String)
    (tag : List String → List (String × String)) (lem : String → String)
    (text : String) : List String :=
  filter_non_content_words (pos_candidates lem (tag (tok text))).2

/-- Source line 101: `verb_freq = Counter(refined_verbs)`, modelled as the
counting function of the multiset (`Counter(l)[w]` is `l.count(w)`). -/
def verb_freq (tok : String → List String)
    (tag : List String → List (String × String)) (lem : String → String)
    (text : String) (w : String) : Nat :=
  (refined_verbs tok tag lem text).count w

/-- Source line 102: `noun_freq = Counter(refined_nouns)`. -/
def noun_freq (tok : String → List String)
    (tag : List String → List (String × String)) (lem : String → String)
    (text : String) (w : String) : Nat :=
  (refined_nouns tok tag lem text).count w

/-- Source lines 87–104 assembled: `refine_verbs_and_nouns(text)` returns
the two filtered candidate lists and the two frequency counters. -/
def refine_verbs_and_nouns (tok : String → List String)
    (tag : List String → List (String × String)) (lem : String → String)
    (text : String) :
    List String × List String × (String → Nat) × (String → Nat) :=
  (refined_verbs tok tag lem text, refined_nouns tok tag lem text,
   verb_freq tok tag lem text, noun_freq tok tag lem text)

/-- Parsed page as produced by the external parser: anchor `href`
attributes, image `src` attributes, the script/style-stripped visible text
(`soup.get_text`), and the raw page content `page_content` the phone/zip
extractors run on. -/
structure Doc where
  links : List String
  imgs : List String
  text : String
  raw : String
deriving DecidableEq

/-- Finite site: association list from URL to its parsed page.  A URL
absent from the list is one whose fetch (or parse) fails. -/
def Site := List (String × Doc)

/-- Source lines 34–41: `fetch_page(url)` returns the page for a known URL
and `None` on a failed request, here a missing key. -/
def fetch_page (site : Site) (url : String) : Option Doc :=
  (List.find? (fun p => p.1 == url) site).map (fun p => p.2)

/-- Source line 31: `base_url = 'https://casl.website/'`. -/
def base_url : String := "https://casl.website/"

/-- Source lines 45–49: the body of the loop of `extract_urls` — keep an
`href` that starts with `'http'` or `'https'` and contains the substring
`'casl.website'`. -/
def url_step (urls : List String) (href : String) : List String :=
  if strStartsWith href "http" || strStartsWith href "https" then
    if strIn "casl.website" href then setAdd urls href else urls
  else urls

/-- Source lines 43–50: `extract_urls(soup)`. -/
def extract_urls (doc : Doc) : List String :=
  doc.links.foldl url_step []

/-- Spec section 8: the domain-membership predicate — the URL contains the
configured domain substring (source line 48). -/
def containsDomain (u : String) : Bool := strIn "casl.website" u

/-- Python `img_url.lstrip('/')`: strip every leading `'/'`. -/
def lstripSlash (s : String) : String := ⟨s.data.dropWhile (fun c => c == '/')⟩

/-- Source lines 56–57 (the body of the loop in `extract_image_urls`): a
source starting with `'/'` is replaced by `base_url + img_url.lstrip('/')`,
any other source is kept as is. -/
def resolveImgSrc (base : String) (img_url : String) : String :=
  if strStartsWith img_url "/" then base ++ lstripSlash img_url else img_url

/-- Source lines 52–59: `extract_image_urls(soup)`. -/
def extract_image_urls (doc : Doc) : List String :=
  doc.imgs.foldl (fun image_urls img_url =>
    setAdd image_urls (resolveImgSrc base_url img_url)) []

/-- Mutable state of the `while` loop of `scrape_site` (source lines
106–135): the five accumulators, plus two instrumentation traces used only
to state claims — `extractTrace` records each URL at the moment its page
is extracted (the body of `if page_content:`), and `fetchTrace` records
each URL at the moment `fetch_page` is called on it. -/
structure CrawlState where
  visited : List String
  image_urls : List String
  phone_numbers : List String
  zip_codes : List String
  all_text : List String
  extractTrace : List String
  fetchTrace : List String
deriving DecidableEq

/-- One iteration of the `while pages_to_visit:` loop (source lines
114–135): pop the last frontier entry, skip it if visited, otherwise fetch
it; on success add it to the visited set, run every extractor, and extend
the frontier with `new_urls - visited_urls`. -/
def crawl_step (site : Site) (frontier : List String) (st : CrawlState) :
    List String × CrawlState :=
  match frontier with
  | [] => ([], st)
  | u :: us =>
    let current_url := (u :: us).getLast (List.cons_ne_nil u us)
    let rest := (u :: us).dropLast
    if current_url ∈ st.visited then (rest, st)
    else
      match fetch_page site current_url with
      | none => (rest, { st with fetchTrace := st.fetchTrace ++ [current_url] })
      | some doc =>
        let visited' := setAdd st.visited current_url
        (rest ++ (extract_urls doc).filter (fun u2 => decide (u2 ∉ visited')),
         { visited := visited'
           image_urls := setUnion st.image_urls (extract_image_urls doc)
           phone_numbers := setUnion st.phone_numbers (extract_phone_numbers doc.raw)
           zip_codes := setUnion st.zip_codes (extract_zip_codes doc.raw)
           all_text := st.all_text ++ [doc.text]
           extractTrace := st.extractTrace ++ [current_url]
           fetchTrace := st.fetchTrace ++ [current_url] })

/-- Fuel-indexed run of the loop: `crawl_run site n frontier st` is the
frontier and state after at most `n` iterations (the loop exits as soon as
the frontier is empty).  Quantifying claims over `n` covers every state the
source loop reaches. -/
def crawl_run (site : Site) : Nat → List String → CrawlState → List String × CrawlState
  | 0, frontier, st => (frontier, st)
  | _ + 1, [], st => ([], st)
  | n + 1, u :: us, st =>
    let p := crawl_step site (u :: us) st
    crawl_run site n p.1 p.2

/-- Empty initial state of `scrape_site` (source lines 107–111). -/
def initState : CrawlState := ⟨[], [], [], [], [], [], []⟩

/-- Source lines 106–135: the traversal part of `scrape_site(url)`, run for
`fuel` iterations from the frontier `[url]` (source line 113).  The lexical
post-processing of lines 137–140 is modelled by `extract_vocabulary` and
`refine_verbs_and_nouns` above, as it depends on the external tokenizer. -/
def scrape_site (site : Site) (url : String) (fuel : Nat) :
    List String × CrawlState :=
  crawl_run site fuel [url] initState

/-- Modelled from the spec: a "pure punctuation" token — nonempty and made
only of punctuation characters.  This is the spec's reading of the fourth
removal condition; the source instead tests substring containment in the
punctuation constant. -/
def specPurePunct (w : String) : Bool :=
  !w.data.isEmpty && w.data.all (fun c => punctuationChars.data.contains c)

/-- Modelled from the spec: the removal disjunction exactly as claim C6
words it — identical to `isNonContentWord` except that the punctuation
condition is "pure punctuation". -/
def specNonContentWord (word : String) : Bool :=
  decide (strToLower word ∈ stopwords_set) ||
  dimensionMatch word ||
  hashMatch word ||
  specPurePunct word ||
  strIsNumeric word ||
  strStartsWith word "http" ||
  strStartsWith word "//" ||
  strIn "=" word

/-- Modelled from the spec: the output claim C6 asserts —
the subsequence of tokens that are not any of the spec's conditions. -/
def specFilter (tokens : List String) : List String :=
  tokens.filter (fun w => !specNonContentWord w)

/-- Two-page cyclic site for claims about the traversal: page `a` links to
page `b` and page `b` links back to page `a`. -/
def docA : Doc := ⟨["https://casl.website/b"], [], "", ""⟩

/-- Second page of the two-page cyclic site. -/
def docB : Doc := ⟨["https://casl.website/a"], [], "", ""⟩

/-- The two-page cyclic site itself. -/
def twoPageSite : Site :=
  [("https://casl.website/a", docA), ("https://casl.website/b", docB)]

/-- Seed page of a site with a dead link: it links to the missing page `f`
and to page `b`. -/
def docSeed : Doc :=
  ⟨["https://casl.website/f", "https://casl.website/b"], [], "", ""⟩

/-- Page `b` of the dead-link site, linking to the missing page `f` again. -/
def docToF : Doc := ⟨["https://casl.website/f"], [], "", ""⟩

/-- Site whose page `f` always fails to fetch but is linked twice. -/
def failSite : Site :=
  [("https://casl.website/", docSeed), ("https://casl.website/b", docToF)]

/-- One-page site consisting of the seed URL alone. -/
def onePageSite : Site := [("https://casl.website/", ⟨[], [], "", ""⟩)]

theorem mem_setAdd {s : List String} {x u : String} (h : u ∈ setAdd s x) :
    u ∈ s ∨ u = x := by
  unfold setAdd at h
  split at h
  · exact Or.inl h
  · rcases List.mem_append.1 h with h' | h'
    · exact Or.inl h'
    · exact Or.inr (List.mem_singleton.1 h')

theorem setAdd_nodup {s : List String} {x : String} (h : s.Nodup) :
    (setAdd s x).Nodup := by
  unfold setAdd
  split
  · exact h
  · simpa [List.nodup_append] using ⟨h, by assumption⟩

theorem mem_of_mem_setAdd_left {s : List String} {x u : String} (h : u ∈ s) :
    u ∈ setAdd s x := by
  unfold setAdd
  split
  · exact h
  · exact List.mem_append.2 (Or.inl h)

theorem self_mem_setAdd {s : List String} {x : String} : x ∈ setAdd s x := by
  unfold setAdd
  split
  · assumption
  · exact List.mem_append.2 (Or.inr (List.mem_singleton.2 rfl))

theorem foldl_if_append (p : String → Bool) (l acc : List String) :
    l.foldl (fun a w => if p w then a else a ++ [w]) acc
      = acc ++ l.filter (fun w => !p w) := by
  induction l generalizing acc with
  | nil => simp
  | cons w l ih =>
    by_cases h : p w
    · simp [h, ih]
    · simp [h, ih]

theorem filter_non_content_words_eq_filter (tokens : List String) :
    filter_non_content_words tokens
      = tokens.filter (fun w => !isNonContentWord w) := by
  simpa using foldl_if_append isNonContentWord tokens []

theorem filter_non_content_words_sublist (tokens : List String) :
    (filter_non_content_words tokens).Sublist tokens := by
  rw [filter_non_content_words_eq_filter]
  exact List.filter_sublist tokens

theorem filter_non_content_words_nodup {tokens : List String}
    (h : tokens.Nodup) : (filter_non_content_words tokens).Nodup := by
  rw [filter_non_content_words_eq_filter]
  exact h.filter _


theorem str_append_data (a b : String) : (a ++ b).data = a.data ++ b.data := rfl

theorem listStartsWith_two {c₁ c₂ : Char} {l : List Char}
    (h : listStartsWith [c₁, c₂] l = true) : ∃ t, l = c₁ :: c₂ :: t := by
  cases l with
  | nil => simp [listStartsWith] at h
  | cons a as =>
    cases as with
    | nil => simp [listStartsWith] at h
    | cons b bs =>
      simp [listStartsWith] at h
      exact ⟨bs, by rw [h.1, h.2]⟩

/-- C3 (counterexample): the claim asserts that `extract_phone_numbers`
matches `"555-987-6543"` on the given text; it does not, because
`phonePatt` demands a literal space after the optional closing parenthesis
of the area code, and `"555-987-6543"` contains no space. -/
theorem phone_regex_counterexample :
    "555-987-6543" ∉
      extract_phone_numbers
        "Call us at (555) 123-4567 or 555-987-6543 near zip 30301-1234" := by
  decide

/-- C3 (amended): on the text
`"Call us at (555) 123-4567 or 555-987-6543 near zip 30301-1234"`,
`extract_phone_numbers` returns exactly `{"(555) 123-4567"}` (the
spaceless `"555-987-6543"` is not matched, since `phonePatt` requires a
literal space after the area-code group) and `extract_zip_codes` returns
exactly `{"30301-1234"}` (the 5+4 form is matched greedily, not `"30301"`
alone). -/
theorem phone_zip_example_amended :
    extract_phone_numbers
        "Call us at (555) 123-4567 or 555-987-6543 near zip 30301-1234"
      = ["(555) 123-4567"]
    ∧ extract_zip_codes
        "Call us at (555) 123-4567 or 555-987-6543 near zip 30301-1234"
      = ["30301-1234"] := by
  exact ⟨by decide, by decide⟩

/-- C6 (counterexample): the claim says the filter removes every "pure
punctuation" token.  The token `"!!"` is pure punctuation, but the source
tests `word in string.punctuation` — substring containment in the 32
character punctuation constant — and `"!!"` is not a substring of it, so
`filter_non_content_words` keeps it while the claimed output drops it. -/
theorem lexical_filter_pure_punct_counterexample :
    filter_non_content_words ["!!"] ≠ specFilter ["!!"] := by
  decide

/-- C6 (amended): `filter_non_content_words` returns the subsequence
(order and duplicates preserved, no new tokens — it is a sublist of the
input) retaining exactly the tokens that are NOT any of: a stopword under
case-insensitive membership, a dimension-noise match, a hash-noise match,
a contiguous substring of Python's punctuation constant (rather than
"pure punctuation"), purely numeric, starting with `"http"` or `"//"`, or
containing `'='`. -/
theorem lexical_filter_characterization (tokens : List String) :
    filter_non_content_words tokens
        = tokens.filter (fun w => !isNonContentWord w)
      ∧ (filter_non_content_words tokens).Sublist tokens :=
  ⟨filter_non_content_words_eq_filter tokens,
   filter_non_content_words_sublist tokens⟩

/-- C9: `filter_non_content_words` is idempotent — filtering an already
filtered token sequence returns it unchanged, because every removal
condition depends only on the individual token. -/
theorem lexical_filter_idempotent (tokens : List String) :
    filter_non_content_words (filter_non_content_words tokens)
      = filter_non_content_words tokens := by
  simp [filter_non_content_words_eq_filter, List.filter_filter]

/-- C8: image URL resolution — a source not starting with `'/'` is
returned unchanged by the resolution step of `extract_image_urls`, and the
root-relative source `"/img/a.png"` resolved against the base
`"https://example.test/"` is the plain concatenation
`"https://example.test/img/a.png"`, with no double slash. -/
theorem image_resolution_unchanged_and_concat :
    (∀ src : String, strStartsWith src "/" = false →
        resolveImgSrc base_url src = src)
      ∧ resolveImgSrc "https://example.test/" "/img/a.png"
          = "https://example.test/img/a.png" := by
  constructor
  · intro src h
    unfold resolveImgSrc
    simp [h]
  · decide

theorem image_resolution_witness :
    strStartsWith "https://cdn.example.com/x.png" "/" = false
      ∧ resolveImgSrc base_url "https://cdn.example.com/x.png"
          = "https://cdn.example.com/x.png" :=
  ⟨by decide,
   image_resolution_unchanged_and_concat.1 "https://cdn.example.com/x.png"
     (by decide)⟩

/-- C10: a protocol-relative image source (starting with `"//"`) is not
kept as-is: it is resolved as root-relative, every leading slash is
stripped and the remainder is concatenated onto the configured base URL,
rewriting the foreign host onto the crawl domain; in particular
`extract_image_urls` turns `"//cdn.example.com/a.png"` into
`"https://casl.website/cdn.example.com/a.png"`. -/
theorem protocol_relative_rewritten :
    (∀ src : String, strStartsWith src "//" = true →
        resolveImgSrc base_url src = base_url ++ lstripSlash src
          ∧ resolveImgSrc base_url src ≠ src)
      ∧ extract_image_urls ⟨[], ["//cdn.example.com/a.png"], "", ""⟩
          = ["https://casl.website/cdn.example.com/a.png"] := by
  constructor
  · intro src h
    obtain ⟨t, ht⟩ := listStartsWith_two h
    have h1 : strStartsWith src "/" = true := by
      unfold strStartsWith
      rw [ht]
      simp [listStartsWith]
    refine ⟨by unfold resolveImgSrc; simp [h1], ?_⟩
    unfold resolveImgSrc
    simp only [h1, if_pos]
    intro hcontra
    have hd := congrArg String.data hcontra
    rw [str_append_data, ht] at hd
    have hb : base_url.data = 'h' :: "ttps://casl.website/".data := rfl
    rw [hb] at hd
    simp at hd
  · decide

theorem protocol_relative_witness :
    strStartsWith "//cdn.example.com/a.png" "//" = true
      ∧ resolveImgSrc base_url "//cdn.example.com/a.png"
          ≠ "//cdn.example.com/a.png" :=
  ⟨by decide,
   (protocol_relative_rewritten.1 "//cdn.example.com/a.png" (by decide)).2⟩

theorem pos_step_nodup (lem : String → String)
    (acc : List String × List String) (wt : String × String)
    (h1 : acc.1.Nodup) (h2 : acc.2.Nodup) :
    (pos_step lem acc wt).1.Nodup ∧ (pos_step lem acc wt).2.Nodup := by
  simp only [pos_step]
  split_ifs
  · exact ⟨setAdd_nodup h1, h2⟩
  · exact ⟨h1, setAdd_nodup h2⟩
  · exact ⟨h1, h2⟩

theorem pos_fold_nodup (lem : String → String)
    (pos_tags : List (String × String)) :
    ∀ acc : List String × List String, acc.1.Nodup → acc.2.Nodup →
      (pos_tags.foldl (pos_step lem) acc).1.Nodup
        ∧ (pos_tags.foldl (pos_step lem) acc).2.Nodup := by
  induction pos_tags with
  | nil => exact fun acc h1 h2 => ⟨h1, h2⟩
  | cons wt rest ih =>
    intro acc h1 h2
    have h := pos_step_nodup lem acc wt h1 h2
    exact ih (pos_step lem acc wt) h.1 h.2

theorem pos_candidates_nodup (lem : String → String)
    (pos_tags : List (String × String)) :
    (pos_candidates lem pos_tags).1.Nodup
      ∧ (pos_candidates lem pos_tags).2.Nodup :=
  pos_fold_nodup lem pos_tags ([], []) List.nodup_nil List.nodup_nil

/-- C7: every frequency value of the verb and noun counters returned by
`refine_verbs_and_nouns` is exactly 1: the lemmas were collapsed into a
set (`pos_candidates` is duplicate-free) before `filter_non_content_words`
was applied, and the counters count within that already-deduplicated
filtered sequence. -/
theorem refine_freq_all_one (tok : String → List String)
    (tag : List String → List (String × String)) (lem : String → String)
    (text : String) :
    (∀ w ∈ refined_verbs tok tag lem text, verb_freq tok tag lem text w = 1)
      ∧ (∀ w ∈ refined_nouns tok tag lem text,
           noun_freq tok tag lem text w = 1) := by
  have h := pos_candidates_nodup lem (tag (tok text))
  constructor
  · intro w hw
    exact List.count_eq_one_of_mem (filter_non_content_words_nodup h.1) hw
  · intro w hw
    exact List.count_eq_one_of_mem (filter_non_content_words_nodup h.2) hw

theorem refine_freq_all_one_witness :
    verb_freq (fun _ => ["running", "dog"])
        (fun l => l.map (fun w => (w, if w == "dog" then "NN" else "VB")))
        (fun w => w) "page text" "running" = 1
      ∧ noun_freq (fun _ => ["running", "dog"])
          (fun l => l.map (fun w => (w, if w == "dog" then "NN" else "VB")))
          (fun w => w) "page text" "dog" = 1 :=
  ⟨(refine_freq_all_one _ _ _ _).1 "running" (by decide),
   (refine_freq_all_one _ _ _ _).2 "dog" (by decide)⟩

theorem crawl_run_nil (site : Site) (n : Nat) (st : CrawlState) :
    crawl_run site n [] st = ([], st) := by
  cases n <;> rfl

theorem crawl_run_add (site : Site) (m n : Nat) :
    ∀ (f : List String) (st : CrawlState),
      crawl_run site (m + n) f st
        = crawl_run site n (crawl_run site m f st).1
            (crawl_run site m f st).2 := by
  induction m with
  | zero =>
    intro f st
    rw [Nat.zero_add]
    rfl
  | succ m ih =>
    intro f st
    rw [Nat.succ_add]
    cases f with
    | nil => rw [crawl_run_nil, crawl_run_nil, crawl_run_nil]
    | cons u us =>
      simp only [crawl_run]
      exact ih _ _

theorem crawl_run_state_inv (site : Site) (P : CrawlState → Prop)
    (hstep : ∀ f st, P st → P (crawl_step site f st).2) :
    ∀ (n : Nat) (f : List String) (st : CrawlState),
      P st → P (crawl_run site n f st).2 := by
  intro n
  induction n with
  | zero => exact fun f st h => h
  | succ n ih =>
    intro f st h
    cases f with
    | nil => exact h
    | cons u us => exact ih _ _ (hstep _ _ h)

theorem crawl_run_pair_inv (site : Site) (Q : List String → CrawlState → Prop)
    (hstep : ∀ f st, Q f st →
      Q (crawl_step site f st).1 (crawl_step site f st).2) :
    ∀ (n : Nat) (f : List String) (st : CrawlState),
      Q f st → Q (crawl_run site n f st).1 (crawl_run site n f st).2 := by
  intro n
  induction n with
  | zero => exact fun f st h => h
  | succ n ih =>
    intro n' st h
    cases n' with
    | nil => exact h
    | cons u us => exact ih _ _ (hstep _ _ h)

theorem mem_dropLast_or_getLast {l : List String} (h : l ≠ []) {u : String}
    (hu : u ∈ l) : u ∈ l.dropLast ∨ u = l.getLast h := by
  have hsplit := List.dropLast_append_getLast h
  rw [← hsplit] at hu
  rcases List.mem_append.1 hu with h' | h'
  · exact Or.inl h'
  · exact Or.inr (List.mem_singleton.1 h')

theorem url_step_domain (urls : List String) (href u : String)
    (h : ∀ v ∈ urls, containsDomain v = true)
    (hu : u ∈ url_step urls href) : containsDomain u = true := by
  unfold url_step at hu
  split at hu
  · split at hu
    · rcases mem_setAdd hu with h' | h'
      · exact h u h'
      · subst h'
        assumption
    · exact h u hu
  · exact h u hu

theorem foldl_url_step_domain (links : List String) :
    ∀ acc, (∀ v ∈ acc, containsDomain v = true) →
      ∀ u ∈ links.foldl url_step acc, containsDomain u = true := by
  induction links with
  | nil => exact fun acc h u hu => h u hu
  | cons href rest ih =>
    intro acc h u hu
    exact ih (url_step acc href)
      (fun v hv => url_step_domain acc href v h hv) u hu

theorem mem_extract_urls_domain (doc : Doc) (u : String)
    (hu : u ∈ extract_urls doc) : containsDomain u = true :=
  foldl_url_step_domain doc.links [] (by simp) u hu

theorem setAdd_of_not_mem {s : List String} {x : String} (h : x ∉ s) :
    setAdd s x = s ++ [x] := by
  simp [setAdd, h]

theorem crawl_step_skip (site : Site) (u₀ : String) (us : List String)
    (st : CrawlState)
    (hv : (u₀ :: us).getLast (List.cons_ne_nil u₀ us) ∈ st.visited) :
    crawl_step site (u₀ :: us) st = ((u₀ :: us).dropLast, st) := by
  simp only [crawl_step]
  rw [if_pos hv]

theorem crawl_step_fail (site : Site) (u₀ : String) (us : List String)
    (st : CrawlState)
    (hv : (u₀ :: us).getLast (List.cons_ne_nil u₀ us) ∉ st.visited)
    (hf : fetch_page site ((u₀ :: us).getLast (List.cons_ne_nil u₀ us)) = none) :
    crawl_step site (u₀ :: us) st
      = ((u₀ :: us).dropLast,
         { st with fetchTrace :=
             st.fetchTrace ++ [(u₀ :: us).getLast (List.cons_ne_nil u₀ us)] }) := by
  simp only [crawl_step]
  rw [if_neg hv, hf]

theorem crawl_step_visit (site : Site) (u₀ : String) (us : List String)
    (st : CrawlState) (doc : Doc)
    (hv : (u₀ :: us).getLast (List.cons_ne_nil u₀ us) ∉ st.visited)
    (hf : fetch_page site ((u₀ :: us).getLast (List.cons_ne_nil u₀ us))
            = some doc) :
    crawl_step site (u₀ :: us) st
      = ((u₀ :: us).dropLast
           ++ (extract_urls doc).filter
                (fun u2 => decide (u2 ∉
                  setAdd st.visited
                    ((u₀ :: us).getLast (List.cons_ne_nil u₀ us)))),
         { visited :=
             setAdd st.visited ((u₀ :: us).getLast (List.cons_ne_nil u₀ us))
           image_urls := setUnion st.image_urls (extract_image_urls doc)
           phone_numbers :=
             setUnion st.phone_numbers (extract_phone_numbers doc.raw)
           zip_codes := setUnion st.zip_codes (extract_zip_codes doc.raw)
           all_text := st.all_text ++ [doc.text]
           extractTrace :=
             st.extractTrace ++ [(u₀ :: us).getLast (List.cons_ne_nil u₀ us)]
           fetchTrace :=
             st.fetchTrace ++ [(u₀ :: us).getLast (List.cons_ne_nil u₀ us)] }) := by
  simp only [crawl_step]
  rw [if_neg hv, hf]

theorem crawl_step_visited_mono (site : Site) (f : List String)
    (st : CrawlState) (u : String) (h : u ∈ st.visited) :
    u ∈ (crawl_step site f st).2.visited := by
  cases f with
  | nil => exact h
  | cons u₀ us =>
    by_cases hv : (u₀ :: us).getLast (List.cons_ne_nil u₀ us) ∈ st.visited
    · rw [crawl_step_skip site u₀ us st hv]
      exact h
    · cases hfetch : fetch_page site ((u₀ :: us).getLast (List.cons_ne_nil u₀ us)) with
      | none =>
        rw [crawl_step_fail site u₀ us st hv hfetch]
        exact h
      | some doc =>
        rw [crawl_step_visit site u₀ us st doc hv hfetch]
        exact mem_of_mem_setAdd_left h

theorem crawl_run_visited_mono (site : Site) (n : Nat) (f : List String)
    (st : CrawlState) (u : String) (h : u ∈ st.visited) :
    u ∈ (crawl_run site n f st).2.visited :=
  crawl_run_state_inv site (fun s => u ∈ s.visited)
    (fun f' st' => crawl_step_visited_mono site f' st' u) n f st h

theorem crawl_step_trace_inv (site : Site) (f : List String) (st : CrawlState)
    (h : st.visited = st.extractTrace ∧ st.visited.Nodup
           ∧ st.all_text.length = st.extractTrace.length) :
    (crawl_step site f st).2.visited = (crawl_step site f st).2.extractTrace
      ∧ (crawl_step site f st).2.visited.Nodup
      ∧ (crawl_step site f st).2.all_text.length
          = (crawl_step site f st).2.extractTrace.length := by
  obtain ⟨h1, h2, h3⟩ := h
  cases f with
  | nil => exact ⟨h1, h2, h3⟩
  | cons u₀ us =>
    by_cases hv : (u₀ :: us).getLast (List.cons_ne_nil u₀ us) ∈ st.visited
    · rw [crawl_step_skip site u₀ us st hv]
      exact ⟨h1, h2, h3⟩
    · cases hfetch : fetch_page site ((u₀ :: us).getLast (List.cons_ne_nil u₀ us)) with
      | none =>
        rw [crawl_step_fail site u₀ us st hv hfetch]
        exact ⟨h1, h2, h3⟩
      | some doc =>
        rw [crawl_step_visit site u₀ us st doc hv hfetch]
        rw [setAdd_of_not_mem hv]
        refine ⟨by rw [h1], ?_, by simp [h3]⟩
        have hc : (((u₀ :: us).getLast (List.cons_ne_nil u₀ us))
            :: st.visited).Nodup := List.nodup_cons.2 ⟨hv, h2⟩
        exact (List.perm_append_singleton _ _).nodup_iff.2 hc

theorem crawl_run_trace_inv (site : Site) (n : Nat) (f : List String)
    (st : CrawlState)
    (h : st.visited = st.extractTrace ∧ st.visited.Nodup
           ∧ st.all_text.length = st.extractTrace.length) :
    (crawl_run site n f st).2.visited = (crawl_run site n f st).2.extractTrace
      ∧ (crawl_run site n f st).2.visited.Nodup
      ∧ (crawl_run site n f st).2.all_text.length
          = (crawl_run site n f st).2.extractTrace.length :=
  crawl_run_state_inv site
    (fun s => s.visited = s.extractTrace ∧ s.visited.Nodup
                ∧ s.all_text.length = s.extractTrace.length)
    (crawl_step_trace_inv site) n f st h


/-- C1: in every crawl run each URL's content is extracted at most once —
the extraction trace of `scrape_site` has no duplicates, the visited set
is exactly the extraction trace, its size equals the number of distinct
URLs extracted (each extracted exactly once), and the accumulated text
list gets exactly one entry per extraction. -/
theorem crawl_visit_once (site : Site) (url : String) (fuel : Nat) :
    (scrape_site site url fuel).2.extractTrace.Nodup
      ∧ (scrape_site site url fuel).2.visited
          = (scrape_site site url fuel).2.extractTrace
      ∧ (scrape_site site url fuel).2.visited.length
          = (scrape_site site url fuel).2.extractTrace.dedup.length
      ∧ (∀ u ∈ (scrape_site site url fuel).2.extractTrace,
           (scrape_site site url fuel).2.extractTrace.count u = 1)
      ∧ (scrape_site site url fuel).2.all_text.length
          = (scrape_site site url fuel).2.extractTrace.length := by
  unfold scrape_site
  obtain ⟨hvt, hnd, hlen⟩ :=
    crawl_run_trace_inv site fuel [url] initState ⟨rfl, List.nodup_nil, rfl⟩
  have hndt : (crawl_run site fuel [url] initState).2.extractTrace.Nodup :=
    hvt ▸ hnd
  refine ⟨hndt, hvt, ?_, ?_, hlen⟩
  · rw [hvt, List.dedup_eq_self.2 hndt]
  · exact fun u hu => List.count_eq_one_of_mem hndt hu

theorem crawl_visit_once_witness :
    "https://casl.website/a"
        ∈ (scrape_site twoPageSite "https://casl.website/a" 4).2.extractTrace
      ∧ (scrape_site twoPageSite "https://casl.website/a" 4).2.extractTrace.count
          "https://casl.website/a" = 1 :=
  ⟨by decide,
   (crawl_visit_once twoPageSite "https://casl.website/a" 4).2.2.2.1
     "https://casl.website/a" (by decide)⟩

/-- C2: on the two-page cyclic site (page `a` links to `b`, page `b` links
back to `a`) the traversal started at `a` empties its frontier after two
iterations, every larger iteration budget yields the very same final
state (the loop has terminated — no infinite loop despite the cycle), and
each of the two pages is visited exactly once. -/
theorem two_page_cycle_terminates :
    (scrape_site twoPageSite "https://casl.website/a" 2).1 = []
      ∧ (∀ k : Nat, scrape_site twoPageSite "https://casl.website/a" (2 + k)
            = scrape_site twoPageSite "https://casl.website/a" 2)
      ∧ (scrape_site twoPageSite "https://casl.website/a" 2).2.extractTrace
          = ["https://casl.website/a", "https://casl.website/b"]
      ∧ (scrape_site twoPageSite "https://casl.website/a" 2).2.visited.count
          "https://casl.website/a" = 1
      ∧ (scrape_site twoPageSite "https://casl.website/a" 2).2.visited.count
          "https://casl.website/b" = 1 := by
  refine ⟨by decide, ?_, by decide, by decide, by decide⟩
  intro k
  unfold scrape_site
  rw [crawl_run_add]
  have h1 : (crawl_run twoPageSite 2 ["https://casl.website/a"] initState).1
      = [] := by decide
  rw [h1, crawl_run_nil]
  exact Prod.ext_iff.2 ⟨h1.symm, rfl⟩

/-- C4 (counterexample): on `failSite` the URL `f` fails to fetch, yet
`fetch_page` is invoked on it twice during the run — once for each of its
two occurrences in the frontier — refuting "a URL whose fetch fails is
never fetched again later in the same run". -/
theorem failed_url_refetch_counterexample :
    fetch_page failSite "https://casl.website/f" = none
      ∧ (scrape_site failSite "https://casl.website/" 4).2.fetchTrace.count
          "https://casl.website/f" = 2 :=
  ⟨by decide, by decide⟩

/-- C4 (amended): a URL whose fetch fails is never added to the visited
set and never has its content extracted (it contributes nothing to any
extraction output), but it MAY be fetched again when it sits in the
frontier more than once or is rediscovered later — the code drops the
result of the failed fetch, not the URL itself. -/
theorem failed_url_never_visited (site : Site) (url u : String) (fuel : Nat)
    (hf : fetch_page site u = none) :
    u ∉ (scrape_site site url fuel).2.visited
      ∧ u ∉ (scrape_site site url fuel).2.extractTrace := by
  unfold scrape_site
  apply crawl_run_state_inv site
    (fun s => u ∉ s.visited ∧ u ∉ s.extractTrace) ?_ fuel [url] initState
    ⟨List.not_mem_nil u, List.not_mem_nil u⟩
  intro f st hst
  obtain ⟨h1, h2⟩ := hst
  cases f with
  | nil => exact ⟨h1, h2⟩
  | cons u₀ us =>
    by_cases hv : (u₀ :: us).getLast (List.cons_ne_nil u₀ us) ∈ st.visited
    · rw [crawl_step_skip site u₀ us st hv]
      exact ⟨h1, h2⟩
    · cases hfetch : fetch_page site ((u₀ :: us).getLast (List.cons_ne_nil u₀ us)) with
      | none =>
        rw [crawl_step_fail site u₀ us st hv hfetch]
        exact ⟨h1, h2⟩
      | some doc =>
        rw [crawl_step_visit site u₀ us st doc hv hfetch]
        have hne : u ≠ (u₀ :: us).getLast (List.cons_ne_nil u₀ us) := by
          intro hcontra
          rw [← hcontra] at hfetch
          rw [hf] at hfetch
          exact Option.noConfusion hfetch
        constructor
        · intro hmem
          rcases mem_setAdd hmem with h' | h'
          · exact h1 h'
          · exact hne h'
        · intro hmem
          rcases List.mem_append.1 hmem with h' | h'
          · exact h2 h'
          · exact hne (List.mem_singleton.1 h')

theorem failed_url_never_visited_witness :
    fetch_page failSite "https://casl.website/f" = none
      ∧ "https://casl.website/f"
          ∉ (scrape_site failSite "https://casl.website/" 4).2.visited :=
  ⟨by decide,
   (failed_url_never_visited failSite "https://casl.website/"
     "https://casl.website/f" 4 (by decide)).1⟩

theorem frontier_complete_visited (site : Site) :
    ∀ (n : Nat) (f : List String) (st : CrawlState) (u : String),
      u ∈ f → (fetch_page site u).isSome = true →
      (crawl_run site n f st).1 = [] →
      u ∈ (crawl_run site n f st).2.visited := by
  intro n
  induction n with
  | zero =>
    intro f st u hu hsome hempty
    have hf : f = [] := hempty
    rw [hf] at hu
    exact absurd hu (List.not_mem_nil u)
  | succ n ih =>
    intro f st u hu hsome hempty
    cases f with
    | nil => exact absurd hu (List.not_mem_nil u)
    | cons u₀ us =>
      have hne : (u₀ :: us) ≠ [] := List.cons_ne_nil u₀ us
      by_cases hv : (u₀ :: us).getLast hne ∈ st.visited
      · have heq : crawl_run site (n + 1) (u₀ :: us) st
            = crawl_run site n ((u₀ :: us).dropLast) st := by
          show crawl_run site n (crawl_step site (u₀ :: us) st).1
              (crawl_step site (u₀ :: us) st).2 = _
          rw [crawl_step_skip site u₀ us st hv]
        rw [heq] at hempty ⊢
        rcases mem_dropLast_or_getLast hne hu with hrest | hcur
        · exact ih _ _ _ hrest hsome hempty
        · exact crawl_run_visited_mono site n _ st u (hcur ▸ hv)
      · cases hfetch : fetch_page site ((u₀ :: us).getLast hne) with
        | none =>
          have heq : crawl_run site (n + 1) (u₀ :: us) st
              = crawl_run site n ((u₀ :: us).dropLast)
                  { st with fetchTrace :=
                      st.fetchTrace ++ [(u₀ :: us).getLast hne] } := by
            show crawl_run site n (crawl_step site (u₀ :: us) st).1
                (crawl_step site (u₀ :: us) st).2 = _
            rw [crawl_step_fail site u₀ us st hv hfetch]
          rw [heq] at hempty ⊢
          rcases mem_dropLast_or_getLast hne hu with hrest | hcur
          · exact ih _ _ _ hrest hsome hempty
          · rw [hcur, hfetch] at hsome
            exact absurd hsome (by simp)
        | some doc =>
          have heq : crawl_run site (n + 1) (u₀ :: us) st
              = crawl_run site n
                  ((u₀ :: us).dropLast
                    ++ (extract_urls doc).filter
                         (fun u2 => decide (u2 ∉
                           setAdd st.visited ((u₀ :: us).getLast hne))))
                  { visited := setAdd st.visited ((u₀ :: us).getLast hne)
                    image_urls := setUnion st.image_urls (extract_image_urls doc)
                    phone_numbers :=
                      setUnion st.phone_numbers (extract_phone_numbers doc.raw)
                    zip_codes := setUnion st.zip_codes (extract_zip_codes doc.raw)
                    all_text := st.all_text ++ [doc.text]
                    extractTrace :=
                      st.extractTrace ++ [(u₀ :: us).getLast hne]
                    fetchTrace :=
                      st.fetchTrace ++ [(u₀ :: us).getLast hne] } := by
            show crawl_run site n (crawl_step site (u₀ :: us) st).1
                (crawl_step site (u₀ :: us) st).2 = _
            rw [crawl_step_visit site u₀ us st doc hv hfetch]
          rw [heq] at hempty ⊢
          rcases mem_dropLast_or_getLast hne hu with hrest | hcur
          · exact ih _ _ _ (List.mem_append.2 (Or.inl hrest)) hsome hempty
          · apply crawl_run_visited_mono
            rw [hcur]
            exact self_mem_setAdd

theorem crawl_step_domain_inv (site : Site) (f : List String) (st : CrawlState)
    (h : (∀ u ∈ f, containsDomain u = true)
           ∧ (∀ u ∈ st.visited, containsDomain u = true)) :
    (∀ u ∈ (crawl_step site f st).1, containsDomain u = true)
      ∧ (∀ u ∈ (crawl_step site f st).2.visited, containsDomain u = true) := by
  obtain ⟨hf, hvis⟩ := h
  cases f with
  | nil => exact ⟨fun u hu => absurd hu (List.not_mem_nil u), hvis⟩
  | cons u₀ us =>
    have hne : (u₀ :: us) ≠ [] := List.cons_ne_nil u₀ us
    have hrest : ∀ u ∈ (u₀ :: us).dropLast, containsDomain u = true :=
      fun u hu => hf u ((List.dropLast_sublist (u₀ :: us)).subset hu)
    by_cases hv : (u₀ :: us).getLast hne ∈ st.visited
    · rw [crawl_step_skip site u₀ us st hv]
      exact ⟨hrest, hvis⟩
    · cases hfetch : fetch_page site ((u₀ :: us).getLast hne) with
      | none =>
        rw [crawl_step_fail site u₀ us st hv hfetch]
        exact ⟨hrest, hvis⟩
      | some doc =>
        rw [crawl_step_visit site u₀ us st doc hv hfetch]
        constructor
        · intro u hu
          rcases List.mem_append.1 hu with h' | h'
          · exact hrest u h'
          · exact mem_extract_urls_domain doc u (List.mem_filter.1 h').1
        · intro u hu
          rcases mem_setAdd hu with h' | h'
          · exact hvis u h'
          · rw [h']
            exact hf _ (List.getLast_mem hne)

/-- C5: in every crawl run started from the configured seed URL
`base_url`, every URL in the visited set satisfies the domain-membership
predicate (contains the substring `"casl.website"`), and whenever the seed
fetches successfully and the run completes (the frontier has emptied), the
seed URL is a member of the visited set. -/
theorem crawl_domain_scope (site : Site) (fuel : Nat) :
    (∀ u ∈ (scrape_site site base_url fuel).2.visited,
        containsDomain u = true)
      ∧ (∀ doc : Doc, fetch_page site base_url = some doc →
           (scrape_site site base_url fuel).1 = [] →
           base_url ∈ (scrape_site site base_url fuel).2.visited) := by
  unfold scrape_site
  constructor
  · have h := crawl_run_pair_inv site
      (fun f s => (∀ u ∈ f, containsDomain u = true)
                    ∧ (∀ u ∈ s.visited, containsDomain u = true))
      (crawl_step_domain_inv site) fuel [base_url] initState
      ⟨by intro u hu; rw [List.mem_singleton.1 hu]; decide,
       fun u hu => absurd hu (List.not_mem_nil u)⟩
    exact h.2
  · intro doc hdoc hempty
    exact frontier_complete_visited site fuel [base_url] initState base_url
      (List.mem_singleton.2 rfl) (by rw [hdoc]; rfl) hempty

theorem crawl_domain_scope_witness :
    containsDomain base_url = true
      ∧ base_url ∈ (scrape_site onePageSite base_url 2).2.visited :=
  ⟨(crawl_domain_scope onePageSite 2).1 base_url
     ((crawl_domain_scope onePageSite 2).2 ⟨[], [], "", ""⟩ (by decide)
       (by decide)),
   (crawl_domain_scope onePageSite 2).2 ⟨[], [], "", ""⟩ (by decide)
     (by decide)⟩
